import Mathlib

/-!
# Verification of the Employee Management service (`src/main.py`)

A shallow embedding of the FastAPI + SQLAlchemy + SQLite employee CRUD
service.  The store (`employees` table) is modelled as a list of rows in
insertion order (SQLite's default rowid order for a table without an
explicit ORDER BY); fresh primary keys are `max id + 1`, SQLite's rule for
an INTEGER PRIMARY KEY without AUTOINCREMENT.  Pydantic validation of
request payloads is modelled by explicit boolean validators; the route
handlers are translated line by line from `main.py`.
-/

namespace EmployeeApi

/-- A row of the `employees` table (class `EmployeeORM` in `main.py`):
integer primary key `id`, strings `name`, `email`, `department`, integer
`age`.  `age` is `Int` because nothing in the schema constrains its sign. -/
structure Employee where
  id : Nat
  name : String
  email : String
  age : Int
  department : String
deriving Repr, DecidableEq

/-- The record store: the rows of the single table, in rowid order. -/
abbrev Store := List Employee

/-- Body of a POST /employees request (class `EmployeeCreate`). -/
structure EmployeeCreate where
  name : String
  email : String
  age : Int
  department : String
deriving Repr, DecidableEq

/-- Body of a PUT /employees/{id} request (class `EmployeeUpdate`):
every field optional, no constraints beyond email syntax. -/
structure EmployeeUpdate where
  name : Option String := none
  email : Option String := none
  age : Option Int := none
  department : Option String := none
deriving Repr, DecidableEq

/-- The error taxonomy of the service (spec section 7). -/
inductive Err where
  | invalidField
  | duplicateKey
  | notFound
deriving Repr, DecidableEq

/-- HTTP status of each error: pydantic validation failures surface as 422,
the duplicate-email `HTTPException`s in `create_employee`/`update_employee`
carry 400, the missing-row ones 404. -/
def Err.status : Err → Nat
  | .invalidField => 422
  | .duplicateKey => 400
  | .notFound => 404

/-- HTTP status of a create response: 201 on success (the route is declared
with `status_code=status.HTTP_201_CREATED`), else the error's status. -/
def createStatus : Except Err Employee → Nat
  | .ok _ => 201
  | .error e => e.status

/-- Python truthiness of an optional string (`if payload.name:`):
`None` and the empty string are falsy. -/
def truthyStr : Option String → Bool
  | none => false
  | some s => s ≠ ""

/-- Python truthiness of an optional integer (`if payload.age:`):
`None` and `0` are falsy; every nonzero integer (negative included) is truthy. -/
def truthyInt : Option Int → Bool
  | none => false
  | some a => a ≠ 0

/-- Python's `str.strip()` whitespace set (the ASCII part): space, tab,
newline, carriage return, vertical tab, form feed. -/
def pyIsSpace (c : Char) : Bool :=
  c == ' ' || c == '\t' || c == '\n' || c == '\r' || c == '\x0b' || c == '\x0c'

/-- Python's `str.strip()` on the character list: drop whitespace from both
ends. -/
def stripChars (l : List Char) : List Char :=
  ((l.dropWhile pyIsSpace).reverse.dropWhile pyIsSpace).reverse

/-- Python's `str.strip()` (`payload.name.strip()` etc. in `main.py`). -/
def pyStrip (s : String) : String := String.mk (stripChars s.data)

/-- Split a character list at every occurrence of `sep` (the list analogue
of Python's `split`). -/
def splitOnChar (sep : Char) : List Char → List (List Char)
  | [] => [[]]
  | c :: cs =>
    let ps := splitOnChar sep cs
    if c == sep then [] :: ps
    else
      match ps with
      | [] => [[c]]
      | p :: rest => (c :: p) :: rest

/-- Modelled from the spec: pydantic's `EmailStr` is an external library
validator whose exact grammar is not in `src/`; the spec (section 4.2) reads
"must match standard email address syntax (local-part "@" domain, domain
containing at least one dot)".  We model exactly that: one `@`, non-empty
local part, domain containing a dot and not starting or ending with one. -/
def isEmail (s : String) : Bool :=
  match splitOnChar '@' s.data with
  | [local_, domain] =>
      !local_.isEmpty && domain.contains '.' &&
        domain.head? != some '.' && domain.getLast? != some '.'
  | _ => false

/-- Pydantic validation of `EmployeeCreate`: `name` and `department` have
`min_length=1` (counted before any trimming), `email` must be an `EmailStr`,
and `age` carries `ge=18, le=100`. -/
def validCreate (p : EmployeeCreate) : Bool :=
  p.name.length ≥ 1 && isEmail p.email && 18 ≤ p.age && p.age ≤ 100 &&
    p.department.length ≥ 1

/-- Pydantic validation of `EmployeeUpdate`: every field is optional and
only `email` has any constraint (`Optional[EmailStr]`); in particular a
provided `age` is NOT bounds-checked. -/
def validUpdate (p : EmployeeUpdate) : Bool :=
  match p.email with
  | some e => isEmail e
  | none => true

/-- Maximum of the ids present in the store (0 when empty). -/
def maxId (s : Store) : Nat := (s.map Employee.id).foldr max 0

/-- The id SQLite assigns to a newly inserted row: `max rowid + 1`. -/
def freshId (s : Store) : Nat := maxId s + 1

/-- POST /employees (`create_employee` in `main.py`): after pydantic
validation, reject with 400 if a row already holds the payload's email
(exact string comparison, `EmployeeORM.email == payload.email`), else
append a row with a fresh id, `name` and `department` stripped.
Returns the response together with the store after the request. -/
def create_employee (p : EmployeeCreate) (s : Store) :
    Except Err Employee × Store :=
  if !validCreate p then (.error .invalidField, s)
  else if s.any (fun e => e.email == p.email) then (.error .duplicateKey, s)
  else
    let emp : Employee :=
      { id := freshId s, name := pyStrip p.name, email := p.email,
        age := p.age, department := pyStrip p.department }
    (.ok emp, s ++ [emp])

/-- Lower-case an ASCII letter (code points 65–90); other characters
unchanged.  This is the case folding SQLite's built-in `lower()` and `LIKE`
apply (ASCII only). -/
def asciiLower (c : Char) : Char :=
  if 65 ≤ c.toNat && c.toNat ≤ 90 then Char.ofNat (c.toNat + 32) else c

/-- SQLite `LIKE` pattern matching: `%` matches any (possibly empty)
sequence, `_` matches exactly one character, and every other pattern
character matches case-insensitively over ASCII (SQLite's default
`case_sensitive_like` is off).  Structural recursion on the pattern:
`%` tries every suffix of the subject. -/
def likeMatch : List Char → List Char → Bool
  | [], s => s.isEmpty
  | p :: ps, s =>
    if p = '%' then s.tails.any (fun t => likeMatch ps t)
    else
      match s with
      | [] => false
      | c :: s' => (p = '_' || asciiLower p == asciiLower c) && likeMatch ps s'

/-- The name filter of the list path:
`EmployeeORM.name.ilike(f"%{search}%")` renders on SQLite as
`lower(name) LIKE lower('%' || search || '%')`. -/
def listNameMatch (search name : String) : Bool :=
  likeMatch (('%' :: search.data ++ ['%']).map asciiLower)
    (name.data.map asciiLower)

/-- The name filter of the export path:
`EmployeeORM.name.contains(search)` renders as
`name LIKE '%' || search || '%'`, evaluated by SQLite's default
(ASCII-case-insensitive) `LIKE`. -/
def exportNameMatch (search name : String) : Bool :=
  likeMatch ('%' :: search.data ++ ['%']) name.data

/-- The filter pipeline of GET /employees (`list_employees` lines 117–120):
`if dept:` exact department match, `if search:` name `ilike`; a parameter
that is absent or the empty string (falsy) adds no predicate. -/
def listFiltered (dept search : Option String) (s : Store) : List Employee :=
  let r1 := if truthyStr dept
    then s.filter (fun e => e.department == dept.getD "") else s
  if truthyStr search
    then r1.filter (fun e => listNameMatch (search.getD "") e.name) else r1

/-- The filter pipeline of GET /employees/export (lines 185–188): same
department predicate, but the name predicate is `contains`. -/
def exportFiltered (dept search : Option String) (s : Store) : List Employee :=
  let r1 := if truthyStr dept
    then s.filter (fun e => e.department == dept.getD "") else s
  if truthyStr search
    then r1.filter (fun e => exportNameMatch (search.getD "") e.name) else r1

/-- GET /employees (`list_employees`): filter, then
`offset((page - 1) * per_page).limit(per_page)`. -/
def list_employees (dept search : Option String) (page per_page : Nat)
    (s : Store) : List Employee :=
  ((listFiltered dept search s).drop ((page - 1) * per_page)).take per_page

/-- GET /employees with the FastAPI query-parameter layer: `page` defaults
to 1 with `ge=1`, `per_page` defaults to 10 with `ge=1, le=100`; a provided
value out of bounds is rejected with 422 before the handler runs. -/
def list_employees_route (dept search : Option String)
    (page? per_page? : Option Nat) (s : Store) :
    Except Err (List Employee) :=
  let page := page?.getD 1
  let per_page := per_page?.getD 10
  if 1 ≤ page && 1 ≤ per_page && per_page ≤ 100 then
    .ok (list_employees dept search page per_page s)
  else .error .invalidField

/-- Helper `get_employee` of `main.py`: first row with the given id. -/
def get_employee (s : Store) (emp_id : Nat) : Option Employee :=
  s.find? (fun e => e.id == emp_id)

/-- The record written by a successful update (lines 144–152 of
`update_employee`): each field is overwritten only when the payload's value
is truthy, `name`/`department` stripped on the way in. -/
def applyUpdate (emp : Employee) (p : EmployeeUpdate) : Employee :=
  { emp with
    name := if truthyStr p.name then pyStrip (p.name.getD "") else emp.name,
    email := if truthyStr p.email then p.email.getD "" else emp.email,
    age := if truthyInt p.age then p.age.getD 0 else emp.age,
    department := if truthyStr p.department
      then pyStrip (p.department.getD "") else emp.department }

/-- PUT /employees/{id} (`update_employee`): 404 if the id is absent; if the
payload's email is truthy and differs from the row's current email, 400 when
any row already holds it; otherwise overwrite the truthy fields and commit.
Returns the response together with the store after the request. -/
def update_employee (id : Nat) (p : EmployeeUpdate) (s : Store) :
    Except Err Employee × Store :=
  if !validUpdate p then (.error .invalidField, s)
  else
    match get_employee s id with
    | none => (.error .notFound, s)
    | some emp =>
      if truthyStr p.email && p.email.getD "" != emp.email &&
          s.any (fun e => e.email == p.email.getD "") then
        (.error .duplicateKey, s)
      else
        let emp' := applyUpdate emp p
        (.ok emp', s.map (fun e => if e.id == id then emp' else e))

/-- DELETE /employees/{id} (`delete_employee`): 404 if the id is absent,
else remove the row.  The success payload is a constant message, so the
response is modelled as `Except Err Unit`. -/
def delete_employee (id : Nat) (s : Store) : Except Err Unit × Store :=
  match get_employee s id with
  | none => (.error .notFound, s)
  | some _ => (.ok (), s.filter (fun e => e.id != id))

/-! ## CSV export

`export_employees` writes the CSV body with Python's `csv.writer` on its
default `excel` dialect: delimiter `,`, quote character `"`,
`QUOTE_MINIMAL` (a field is quoted exactly when it contains the delimiter,
the quote character, or a line-terminator character `\r`/`\n`, with embedded
quotes doubled), and rows terminated by `\r\n`.  Characters are modelled as
`List Char` so the quoting proofs can recurse over them. -/

/-- Does `QUOTE_MINIMAL` quote this field? -/
def csvNeedsQuote (f : List Char) : Bool :=
  f.any (fun c => c == ',' || c == '"' || c == '\n' || c == '\r')

/-- Double every quote character (the dialect's `doublequote = True`). -/
def csvEscape : List Char → List Char
  | [] => []
  | c :: cs => if c == '"' then '"' :: '"' :: csvEscape cs else c :: csvEscape cs

/-- Serialize one field: quoted with doubled inner quotes when
`QUOTE_MINIMAL` requires it, verbatim otherwise. -/
def csvFieldOut (f : List Char) : List Char :=
  if csvNeedsQuote f then '"' :: (csvEscape f ++ ['"']) else f

/-- Join serialized fields with the delimiter. -/
def csvJoin : List (List Char) → List Char
  | [] => []
  | [f] => csvFieldOut f
  | f :: fs => csvFieldOut f ++ ',' :: csvJoin fs

/-- One `writer.writerow(fields)` call: the joined fields plus the `\r\n` terminator. -/
def csvWriterow (fs : List (List Char)) : List Char :=
  csvJoin fs ++ ['\r', '\n']

/-- The header row written first: `["id", "name", "email", "age", "department"]`. -/
def csvHeader : List (List Char) :=
  [String.data "id", String.data "name", String.data "email",
   String.data "age", String.data "department"]

/-- The five cells written for a row: `[r.id, r.name, r.email, r.age,
r.department]`, the integers via `str(...)` (Python's decimal rendering,
which is what `repr` gives for `Nat`/`Int`). -/
def recordFields (r : Employee) : List (List Char) :=
  [(Nat.repr r.id).data, r.name.data, r.email.data,
   (Int.repr r.age).data, r.department.data]

/-- The CSV payload of GET /employees/export?fmt=csv (lines 196–204):
header row, then one row per record in query order. -/
def exportCsvChars (rows : List Employee) : List Char :=
  csvWriterow csvHeader ++
    (rows.map (fun r => csvWriterow (recordFields r))).flatten

/-- GET /employees/export with `fmt=csv`: filter with the export-path
predicates (no pagination), then serialize. -/
def export_employees_csv (dept search : Option String) (s : Store) :
    List Char :=
  exportCsvChars (exportFiltered dept search s)

/-! ### A standard CSV reader, used to state that the writer quotes
correctly.  It is the inverse direction only — nothing in `main.py` parses
CSV — so it is a specification artifact: `csvParse` reads a document in the
same `excel` dialect back into its list of records. -/

/-- Read an unquoted field: everything up to the next delimiter or `\r`. -/
def csvReadBare (l : List Char) : List Char × List Char :=
  match l with
  | [] => ([], [])
  | c :: rest =>
    if c == ',' || c == '\r' then ([], l)
    else
      let (f, r) := csvReadBare rest
      (c :: f, r)

/-- Read the body of a quoted field, the opening quote already consumed:
a doubled quote is a literal quote, a lone quote closes the field.
`none` on an unterminated quote. -/
def csvReadQuoted : List Char → Option (List Char × List Char)
  | [] => none
  | c :: rest =>
    if c = '"' then
      match rest with
      | [] => some ([], [])
      | d :: rest' =>
        if d = '"' then (csvReadQuoted rest').map (fun p => ('"' :: p.1, p.2))
        else some ([], rest)
    else (csvReadQuoted rest).map (fun p => (c :: p.1, p.2))

/-- Read one field, quoted or bare. -/
def csvReadField (l : List Char) : Option (List Char × List Char) :=
  match l with
  | [] => some ([], [])
  | c :: rest => if c = '"' then csvReadQuoted rest else some (csvReadBare l)

/-- Read one record of exactly five comma-separated fields terminated by
`\r\n` (every row this exporter writes has the five header columns). -/
def csvReadRecord5 (l : List Char) : Option (List (List Char) × List Char) :=
  match csvReadField l with
  | none => none
  | some (f1, r1) =>
    match r1 with
    | ',' :: r1' =>
      match csvReadField r1' with
      | none => none
      | some (f2, r2) =>
        match r2 with
        | ',' :: r2' =>
          match csvReadField r2' with
          | none => none
          | some (f3, r3) =>
            match r3 with
            | ',' :: r3' =>
              match csvReadField r3' with
              | none => none
              | some (f4, r4) =>
                match r4 with
                | ',' :: r4' =>
                  match csvReadField r4' with
                  | none => none
                  | some (f5, r5) =>
                    match r5 with
                    | '\r' :: '\n' :: r5' =>
                        some ([f1, f2, f3, f4, f5], r5')
                    | _ => none
                | _ => none
            | _ => none
        | _ => none
    | _ => none

/-- Read records until the input is exhausted; `fuel` bounds the number of
records (each record consumes at least its `\r\n`, so `l.length` suffices). -/
def csvParseGo (fuel : Nat) (l : List Char) :
    Option (List (List (List Char))) :=
  match fuel with
  | 0 => if l.isEmpty then some [] else none
  | fuel + 1 =>
    if l.isEmpty then some []
    else
      match csvReadRecord5 l with
      | none => none
      | some (fs, rest) => (csvParseGo fuel rest).map (fs :: ·)

/-- Parse a whole CSV document into its records. -/
def csvParse (l : List Char) : Option (List (List (List Char))) :=
  csvParseGo l.length l

/-! ## Concrete data used to instantiate theorems with hypotheses. -/

/-- A small well-formed store: two rows with distinct ids and emails. -/
def demoStore : Store :=
  [⟨1, "Alice", "a@b.co", 30, "Eng"⟩, ⟨2, "bob", "b@b.co", 40, "Sales"⟩]

/-- A 20-row store (for the pagination property). -/
def demoStore20 : Store :=
  (List.range 20).map (fun i => ⟨i + 1, "n", "e", 20, "d"⟩)

/-- From the claim's words (not from the code): case-sensitive substring
containment of `pat` in `s`, used to state what the export search filter
does NOT implement. -/
def csSubstring (pat s : String) : Bool :=
  s.data.tails.any (fun t => pat.data.isPrefixOf t)

/-! # Theorems -/

/-! ## Atomicity of the mutating operations (C3) -/

theorem create_error_unchanged (p : EmployeeCreate) (s : Store) (err : Err)
    (h : (create_employee p s).1 = .error err) :
    (create_employee p s).2 = s := by
  unfold create_employee at h ⊢
  cases hv : validCreate p
  · simp [hv]
  · simp only [hv, Bool.not_true, Bool.false_eq_true, if_false] at h ⊢
    cases hd : s.any (fun e => e.email == p.email)
    · simp [hd] at h
    · simp [hd]

theorem update_error_unchanged (id : Nat) (p : EmployeeUpdate) (s : Store)
    (err : Err) (h : (update_employee id p s).1 = .error err) :
    (update_employee id p s).2 = s := by
  unfold update_employee at h ⊢
  cases hv : validUpdate p
  · simp [hv]
  · simp only [hv, Bool.not_true, Bool.false_eq_true, if_false] at h ⊢
    cases hg : get_employee s id with
    | none => simp [hg]
    | some e0 =>
      simp only [hg] at h ⊢
      cases hc : truthyStr p.email && p.email.getD "" != e0.email &&
          s.any (fun e => e.email == p.email.getD "")
      · simp [hc] at h
      · simp [hc]

theorem delete_error_unchanged (id : Nat) (s : Store) (err : Err)
    (h : (delete_employee id s).1 = .error err) :
    (delete_employee id s).2 = s := by
  unfold delete_employee at h ⊢
  cases hg : get_employee s id with
  | none => simp [hg]
  | some e0 => simp [hg] at h

/-- C3: every mutating operation (create, update, delete) is atomic — if it
returns any error, the store after the request equals the store before it;
no partial write survives a failure. -/
theorem claim_C3 (s : Store) :
    (∀ p err, (create_employee p s).1 = .error err →
      (create_employee p s).2 = s) ∧
    (∀ id p err, (update_employee id p s).1 = .error err →
      (update_employee id p s).2 = s) ∧
    (∀ id err, (delete_employee id s).1 = .error err →
      (delete_employee id s).2 = s) :=
  ⟨fun p err h => create_error_unchanged p s err h,
   fun id p err h => update_error_unchanged id p s err h,
   fun id err h => delete_error_unchanged id s err h⟩

/-- Witness for C3 at concrete failing requests: a duplicate-email create, a
missing-id update and a missing-id delete all leave `demoStore` unchanged. -/
theorem claim_C3_witness :
    (create_employee ⟨"X", "a@b.co", 33, "Eng"⟩ demoStore).2 = demoStore ∧
    (update_employee 3 {} demoStore).2 = demoStore ∧
    (delete_employee 3 demoStore).2 = demoStore :=
  ⟨(claim_C3 demoStore).1 ⟨"X", "a@b.co", 33, "Eng"⟩ .duplicateKey (by rfl),
   (claim_C3 demoStore).2.1 3 {} .notFound (by rfl),
   (claim_C3 demoStore).2.2 3 .notFound (by rfl)⟩

/-! ## List defaults (C10) -/

/-- C10: with `page` and `per_page` omitted, GET /employees defaults them to
1 and 10, so the response is the first at-most-10 rows of the filtered
result. -/
theorem claim_C10 (dept search : Option String) (s : Store) :
    list_employees_route dept search none none s =
      .ok ((listFiltered dept search s).take 10) := by
  simp [list_employees_route, list_employees]

/-! ## Whitespace-only names on create (C5) -/

/-- C5 counterexample: the claim says a create whose name is whitespace-only
(empty after trimming) is rejected with `InvalidField` and inserts no row.
On the code, name `" "` passes validation (`min_length=1` counts untrimmed
characters), the request succeeds, and a row with name stripped to `""` is
inserted. -/
theorem claim_C5_counterexample :
    (create_employee ⟨" ", "c@d.co", 30, "Eng"⟩ []).1 =
      .ok ⟨1, "", "c@d.co", 30, "Eng"⟩ ∧
    (create_employee ⟨" ", "c@d.co", 30, "Eng"⟩ []).2 =
      [⟨1, "", "c@d.co", 30, "Eng"⟩] :=
  ⟨rfl, rfl⟩

/-- C5 (amended): a create whose name is the empty string is rejected with
`InvalidField` and the store is unchanged; but the empty-after-trim check of
the claim does not exist — any name of length ≥ 1 (whitespace-only
included) is accepted, and the inserted row carries the name stripped of
leading/trailing whitespace (possibly the empty string). -/
theorem claim_C5 (p : EmployeeCreate) (s : Store) :
    (p.name = "" → create_employee p s = (.error .invalidField, s)) ∧
    (∀ emp, (create_employee p s).1 = .ok emp →
      emp.name = pyStrip p.name ∧ emp ∈ (create_employee p s).2) := by
  constructor
  · intro hn
    have hv : validCreate p = false := by simp [validCreate, hn]
    simp [create_employee, hv]
  · intro emp h
    unfold create_employee at h ⊢
    cases hv : validCreate p
    · simp [hv] at h
    · simp only [hv, Bool.not_true, Bool.false_eq_true, if_false] at h ⊢
      cases hd : s.any (fun e => e.email == p.email)
      · simp only [hd, Bool.false_eq_true, if_false] at h ⊢
        simp only [Except.ok.injEq] at h
        subst h
        exact ⟨rfl, by simp⟩
      · simp [hd] at h

/-- Witness for C5: the empty name is rejected on the empty store, and the
create with name `" Alice "` stores the stripped name `"Alice"`. -/
theorem claim_C5_witness :
    create_employee ⟨"", "c@d.co", 30, "Eng"⟩ [] =
      (.error .invalidField, ([] : Store)) ∧
    ((⟨1, "Alice", "a@b.co", 30, "Eng"⟩ : Employee).name = pyStrip " Alice " ∧
      (⟨1, "Alice", "a@b.co", 30, "Eng"⟩ : Employee) ∈
        (create_employee ⟨" Alice ", "a@b.co", 30, "Eng"⟩ []).2) :=
  ⟨(claim_C5 ⟨"", "c@d.co", 30, "Eng"⟩ []).1 rfl,
   (claim_C5 ⟨" Alice ", "a@b.co", 30, "Eng"⟩ []).2
     ⟨1, "Alice", "a@b.co", 30, "Eng"⟩ (by rfl)⟩

/-! ## Age bounds (C2) -/

/-- C2 counterexample: the claim says an update payload with age outside
[18, 100] is rejected with `InvalidField`.  On the code, `EmployeeUpdate`
carries no bounds and `update_employee` writes any truthy age: updating the
valid row id 1 with age 150 succeeds and persists a row violating the
age invariant. -/
theorem claim_C2_counterexample :
    (update_employee 1 { age := some 150 } demoStore).1 =
      .ok ⟨1, "Alice", "a@b.co", 150, "Eng"⟩ ∧
    ((update_employee 1 { age := some 150 } demoStore).2).any
      (fun e => e.age > 100) = true :=
  ⟨rfl, rfl⟩

/-- C2 (amended): the create path does enforce the bounds — every employee
a successful create returns has age within [18, 100] — but the update path
performs no age validation: any nonzero age in the payload, in bounds or
not, is written verbatim to the stored row. -/
theorem claim_C2 :
    (∀ p s emp, (create_employee p s).1 = .ok emp →
      18 ≤ emp.age ∧ emp.age ≤ 100) ∧
    (∀ id p s a emp, p.age = some a → a ≠ 0 →
      (update_employee id p s).1 = .ok emp → emp.age = a) := by
  constructor
  · intro p s emp h
    unfold create_employee at h
    cases hv : validCreate p
    · simp [hv] at h
    · simp only [hv, Bool.not_true, Bool.false_eq_true, if_false] at h
      cases hd : s.any (fun e => e.email == p.email)
      · simp only [hd, Bool.false_eq_true, if_false, Except.ok.injEq] at h
        subst h
        simp only [validCreate, Bool.and_eq_true, decide_eq_true_eq] at hv
        exact ⟨hv.1.1.2, hv.1.2⟩
      · simp [hd] at h
  · intro id p s a emp hpa ha h
    unfold update_employee at h
    cases hv : validUpdate p
    · simp [hv] at h
    · simp only [hv, Bool.not_true, Bool.false_eq_true, if_false] at h
      cases hg : get_employee s id with
      | none => simp [hg] at h
      | some e0 =>
        simp only [hg] at h
        cases hc : truthyStr p.email && p.email.getD "" != e0.email &&
            s.any (fun e => e.email == p.email.getD "")
        · simp only [hc, Bool.false_eq_true, if_false, Except.ok.injEq] at h
          subst h
          simp [applyUpdate, truthyInt, hpa, ha]
        · simp [hc] at h

/-- Witness for C2: the created demo row has age in bounds; the age-150
update writes 150. -/
theorem claim_C2_witness :
    (18 ≤ (⟨1, "Alice", "a@b.co", 30, "Eng"⟩ : Employee).age ∧
      (⟨1, "Alice", "a@b.co", 30, "Eng"⟩ : Employee).age ≤ 100) ∧
    (⟨1, "Alice", "a@b.co", 150, "Eng"⟩ : Employee).age = 150 :=
  ⟨claim_C2.1 ⟨"Alice", "a@b.co", 30, "Eng"⟩ [] ⟨1, "Alice", "a@b.co", 30, "Eng"⟩
     (by rfl),
   claim_C2.2 1 { age := some 150 } demoStore 150
     ⟨1, "Alice", "a@b.co", 150, "Eng"⟩ rfl (by decide) (by rfl)⟩

/-! ## Duplicate email on create (C1) -/

theorem le_maxId (s : Store) (e : Employee) (he : e ∈ s) : e.id ≤ maxId s := by
  induction s with
  | nil => cases he
  | cons a t ih =>
    have hm : maxId (a :: t) = max a.id (maxId t) := rfl
    rcases List.mem_cons.mp he with rfl | ht
    · rw [hm]; exact Nat.le_max_left _ _
    · rw [hm]; exact Nat.le_trans (ih ht) (Nat.le_max_right _ _)

/-- C1: when two valid create requests carry the same email and the store
does not already hold that email, the one processed first succeeds with 201
and an id fresh for the store, and the other then fails with
`DuplicateKey`/400.  `p1` ranges over whichever request is processed first,
so both processing orders are instances of this statement. -/
theorem claim_C1 (p1 p2 : EmployeeCreate) (s : Store)
    (hv1 : validCreate p1 = true) (hv2 : validCreate p2 = true)
    (he : p1.email = p2.email)
    (hfree : s.all (fun e => e.email != p1.email) = true) :
    ∃ emp1, (create_employee p1 s).1 = .ok emp1 ∧
      createStatus (create_employee p1 s).1 = 201 ∧
      (∀ e ∈ s, e.id ≠ emp1.id) ∧
      (create_employee p2 (create_employee p1 s).2).1 = .error .duplicateKey ∧
      createStatus (create_employee p2 (create_employee p1 s).2).1 = 400 := by
  have hall : ∀ e ∈ s, e.email ≠ p1.email := by
    intro e hm
    have := List.all_eq_true.mp hfree e hm
    simpa using this
  have hany : s.any (fun e => e.email == p1.email) = false := by
    cases hq : s.any (fun e => e.email == p1.email)
    · rfl
    · obtain ⟨e, hm, hp⟩ := List.any_eq_true.mp hq
      exact absurd (by simpa using hp) (hall e hm)
  have h1 : create_employee p1 s =
      (.ok ⟨freshId s, pyStrip p1.name, p1.email, p1.age, pyStrip p1.department⟩,
        s ++ [⟨freshId s, pyStrip p1.name, p1.email, p1.age, pyStrip p1.department⟩]) := by
    unfold create_employee
    simp [hv1, hany]
  refine ⟨_, by rw [h1], by rw [h1]; rfl, ?_, ?_, ?_⟩
  · intro e hm hid
    have hle := le_maxId s e hm
    have hid' : e.id = maxId s + 1 := hid
    omega
  · rw [h1]
    unfold create_employee
    have hdup : (s ++ [(⟨freshId s, pyStrip p1.name, p1.email, p1.age,
        pyStrip p1.department⟩ : Employee)]).any
        (fun e => e.email == p2.email) = true := by
      rw [List.any_append]
      simp [← he]
    simp [hv2, hdup]
  · rw [h1]
    unfold create_employee
    have hdup : (s ++ [(⟨freshId s, pyStrip p1.name, p1.email, p1.age,
        pyStrip p1.department⟩ : Employee)]).any
        (fun e => e.email == p2.email) = true := by
      rw [List.any_append]
      simp [← he]
    simp [hv2, hdup, createStatus, Err.status]

/-- Witness for C1 on the empty store: the first create of `a@b.co`
succeeds, the second fails with `DuplicateKey`. -/
theorem claim_C1_witness :
    (create_employee ⟨"Bob", "a@b.co", 40, "Sales"⟩
      (create_employee ⟨"Alice", "a@b.co", 30, "Eng"⟩ []).2).1 =
      .error .duplicateKey := by
  obtain ⟨emp1, h1, h2, h3, h4, h5⟩ :=
    claim_C1 ⟨"Alice", "a@b.co", 30, "Eng"⟩ ⟨"Bob", "a@b.co", 40, "Sales"⟩ []
      (by decide) (by decide) rfl (by decide)
  exact h4

/-! ## Update duplicate-email condition (C4) -/

/-- C4: an update of an existing row fails with `DuplicateKey` exactly when
the payload provides (truthy) an email that differs from the row's current
email and some other existing row already holds it; in particular a payload
that omits the email or repeats the current one never yields
`DuplicateKey`. -/
theorem claim_C4 (id : Nat) (p : EmployeeUpdate) (s : Store) (emp : Employee)
    (hv : validUpdate p = true) (hg : get_employee s id = some emp) :
    ((update_employee id p s).1 = .error .duplicateKey ↔
      (truthyStr p.email = true ∧ p.email.getD "" ≠ emp.email ∧
        ∃ e ∈ s, e ≠ emp ∧ e.email = p.email.getD "")) ∧
    ((truthyStr p.email = false ∨ p.email = some emp.email) →
      (update_employee id p s).1 ≠ .error .duplicateKey) := by
  have hiff : (update_employee id p s).1 = .error .duplicateKey ↔
      (truthyStr p.email = true ∧ p.email.getD "" ≠ emp.email ∧
        ∃ e ∈ s, e ≠ emp ∧ e.email = p.email.getD "") := by
    unfold update_employee
    simp only [hv, Bool.not_true, Bool.false_eq_true, if_false, hg]
    cases hc : truthyStr p.email && p.email.getD "" != emp.email &&
        s.any (fun e => e.email == p.email.getD "")
    · simp only [Bool.false_eq_true, if_false]
      constructor
      · intro h; simp at h
      · rintro ⟨ht, hne, e, hm, hne2, heq⟩
        have : s.any (fun e => e.email == p.email.getD "") = true :=
          List.any_eq_true.mpr ⟨e, hm, by simp [heq]⟩
        simp [ht, hne, this] at hc
    · simp only [Bool.and_eq_true, bne_iff_ne, ne_eq] at hc
      obtain ⟨⟨ht, hne⟩, hany⟩ := hc
      obtain ⟨e, hm, hp⟩ := List.any_eq_true.mp hany
      have hee : e.email = p.email.getD "" := by simpa using hp
      have hne' : e ≠ emp := fun hcontra => hne ((hcontra ▸ hee).symm)
      constructor
      · exact fun _ => ⟨ht, hne, e, hm, hne', hee⟩
      · intro _
        simp
  refine ⟨hiff, ?_⟩
  intro hor h
  rcases hiff.mp h with ⟨ht, hne, _⟩
  rcases hor with hf | hsome
  · rw [ht] at hf; cases hf
  · exact hne (by rw [hsome]; rfl)

/-- Witness for C4 on `demoStore`: updating row 1's email to row 2's email
is rejected with `DuplicateKey`, while repeating row 1's own email is not. -/
theorem claim_C4_witness :
    (update_employee 1 { email := some "b@b.co" } demoStore).1 =
      .error .duplicateKey ∧
    (update_employee 1 { email := some "a@b.co" } demoStore).1 ≠
      .error .duplicateKey := by
  constructor
  · exact (claim_C4 1 { email := some "b@b.co" } demoStore
      ⟨1, "Alice", "a@b.co", 30, "Eng"⟩ (by decide) (by rfl)).1.mpr
      ⟨by decide, by decide,
        ⟨2, "bob", "b@b.co", 40, "Sales"⟩, by decide, by decide, by decide⟩
  · exact (claim_C4 1 { email := some "a@b.co" } demoStore
      ⟨1, "Alice", "a@b.co", 30, "Eng"⟩ (by decide) (by rfl)).2 (Or.inr rfl)

/-! ## Frame behaviour of update (C6) -/

/-- C6: on a successful update of an existing row, a field that is omitted
or carries a falsy value (`None`, the empty string, zero) is left unchanged
in the returned record, and a truthy value is written (`name`/`department`
stripped of surrounding whitespace); the returned record is in the store
after the request. -/
theorem claim_C6 (id : Nat) (p : EmployeeUpdate) (s : Store)
    (emp emp' : Employee) (hg : get_employee s id = some emp)
    (hok : (update_employee id p s).1 = .ok emp') :
    emp'.id = emp.id ∧
    (truthyStr p.name = false → emp'.name = emp.name) ∧
    (∀ n, p.name = some n → n ≠ "" → emp'.name = pyStrip n) ∧
    (truthyStr p.email = false → emp'.email = emp.email) ∧
    (∀ m, p.email = some m → m ≠ "" → emp'.email = m) ∧
    (truthyInt p.age = false → emp'.age = emp.age) ∧
    (∀ a, p.age = some a → a ≠ 0 → emp'.age = a) ∧
    (truthyStr p.department = false → emp'.department = emp.department) ∧
    (∀ d, p.department = some d → d ≠ "" → emp'.department = pyStrip d) ∧
    emp' ∈ (update_employee id p s).2 := by
  have hmem : emp ∈ s := List.mem_of_find?_eq_some hg
  have hupd : update_employee id p s =
      (.ok (applyUpdate emp p),
        s.map (fun e => if e.id == id then applyUpdate emp p else e)) := by
    unfold update_employee at hok ⊢
    cases hv : validUpdate p
    · simp [hv] at hok
    · simp only [hv, Bool.not_true, Bool.false_eq_true, if_false, hg] at hok ⊢
      cases hc : truthyStr p.email && p.email.getD "" != emp.email &&
          s.any (fun e => e.email == p.email.getD "")
      · simp [hc]
      · simp [hc] at hok
  have hid : (emp.id == id) = true := by
    simpa using List.find?_some hg
  have hemp' : emp' = applyUpdate emp p := by
    rw [hupd] at hok
    simpa using hok.symm
  subst hemp'
  refine ⟨rfl, ?_, ?_, ?_, ?_, ?_, ?_, ?_, ?_, ?_⟩
  · intro h; simp [applyUpdate, h]
  · intro n hn hne; simp [applyUpdate, truthyStr, hn, hne]
  · intro h; simp [applyUpdate, h]
  · intro m hm hne; simp [applyUpdate, truthyStr, hm, hne]
  · intro h; simp [applyUpdate, h]
  · intro a ha hne; simp [applyUpdate, truthyInt, ha, hne]
  · intro h; simp [applyUpdate, h]
  · intro d hd hne; simp [applyUpdate, truthyStr, hd, hne]
  · rw [hupd]
    refine List.mem_map.mpr ⟨emp, hmem, ?_⟩
    simp [hid]

/-- Witness for C6 on `demoStore`: updating row 1 with
`{name: " Al ", age: 0}` (email and department absent) writes the stripped
name and leaves email, age and department untouched. -/
theorem claim_C6_witness :
    (⟨1, "Al", "a@b.co", 30, "Eng"⟩ : Employee).name = pyStrip " Al " ∧
    (⟨1, "Al", "a@b.co", 30, "Eng"⟩ : Employee).email =
      (⟨1, "Alice", "a@b.co", 30, "Eng"⟩ : Employee).email ∧
    (⟨1, "Al", "a@b.co", 30, "Eng"⟩ : Employee).age =
      (⟨1, "Alice", "a@b.co", 30, "Eng"⟩ : Employee).age ∧
    (⟨1, "Al", "a@b.co", 30, "Eng"⟩ : Employee) ∈
      (update_employee 1 { name := some " Al ", age := some 0 }
        demoStore).2 := by
  obtain ⟨h0, h1, h2, h3, h4, h5, h6, h7, h8, h9⟩ :=
    claim_C6 1 { name := some " Al ", age := some 0 }
      demoStore ⟨1, "Alice", "a@b.co", 30, "Eng"⟩ ⟨1, "Al", "a@b.co", 30, "Eng"⟩
      (by rfl) (by rfl)
  exact ⟨h2 " Al " rfl (by decide), h3 (by rfl), h5 (by rfl), h9⟩

/-! ## Pagination (C7) -/

/-- C7: for a store whose filtered result has at least 20 rows, page 1 and
page 2 at 10 per page concatenate to page 1 at 20 per page; in general the
listed window is the slice of the filtered result at offset
`(page - 1) * per_page` of length at most `per_page`. -/
theorem claim_C7 (dept search : Option String) (s : Store)
    (_h20 : 20 ≤ (listFiltered dept search s).length) :
    list_employees dept search 1 10 s ++ list_employees dept search 2 10 s =
      list_employees dept search 1 20 s ∧
    (∀ page per_page, list_employees dept search page per_page s =
      ((listFiltered dept search s).drop ((page - 1) * per_page)).take
        per_page) ∧
    (∀ page per_page,
      (list_employees dept search page per_page s).length ≤ per_page) := by
  refine ⟨?_, fun page per_page => rfl,
    fun page per_page => List.length_take_le _ _⟩
  unfold list_employees
  norm_num
  exact (List.take_add _ 10 10).symm

/-- Witness for C7 on a 20-row store with no filters. -/
theorem claim_C7_witness :
    list_employees none none 1 10 demoStore20 ++
        list_employees none none 2 10 demoStore20 =
      list_employees none none 1 20 demoStore20 :=
  (claim_C7 none none demoStore20 (by decide)).1

/-! ## Search case-sensitivity (C9)

`main.py` runs on SQLite (`DATABASE_URL = "sqlite:///./employees.db"`).
`Column.contains(x)` renders as `name LIKE '%' || x || '%'`, and SQLite's
default `LIKE` is case-insensitive for the ASCII range; `Column.ilike`
renders as `lower(name) LIKE lower(pattern)`, and SQLite's `lower()` also
folds only ASCII.  So the two search predicates coincide — the export
filter is NOT the case-sensitive substring match the spec describes. -/

theorem char_eq_iff_toNat (c d : Char) : c = d ↔ c.toNat = d.toNat :=
  ⟨fun h => by rw [h], fun h => Char.eq_of_val_eq (UInt32.ext h)⟩

theorem asciiLower_eq_self (c : Char) (h : ¬(65 ≤ c.toNat ∧ c.toNat ≤ 90)) :
    asciiLower c = c := by
  unfold asciiLower
  rw [if_neg]
  simpa using h

theorem asciiLower_upper_toNat (c : Char) (h : 65 ≤ c.toNat ∧ c.toNat ≤ 90) :
    (asciiLower c).toNat = c.toNat + 32 := by
  unfold asciiLower
  rw [if_pos (by simpa using h)]
  have hv : (c.toNat + 32).isValidChar := Or.inl (by omega)
  show (Char.ofNat (c.toNat + 32)).toNat = c.toNat + 32
  unfold Char.ofNat
  rw [dif_pos hv]
  rfl

theorem asciiLower_idem (c : Char) : asciiLower (asciiLower c) = asciiLower c := by
  by_cases h : 65 ≤ c.toNat ∧ c.toNat ≤ 90
  · apply asciiLower_eq_self
    rw [asciiLower_upper_toNat c h]
    omega
  · rw [asciiLower_eq_self c h]
    exact asciiLower_eq_self c h

/-- Mapping `asciiLower` is transparent on non-letters: for a target `d` that is
neither an uppercase nor a lowercase ASCII letter, `asciiLower c = d` iff
`c = d`. -/
theorem asciiLower_eq_nonletter (c d : Char)
    (hd : d.toNat < 65 ∨ (90 < d.toNat ∧ d.toNat < 97) ∨ 122 < d.toNat) :
    (asciiLower c = d) = (c = d) := by
  apply propext
  constructor
  · intro h
    by_cases hu : 65 ≤ c.toNat ∧ c.toNat ≤ 90
    · exfalso
      have h2 := (char_eq_iff_toNat _ _).mp h
      rw [asciiLower_upper_toNat c hu] at h2
      omega
    · rwa [asciiLower_eq_self c hu] at h
  · intro h
    subst h
    apply asciiLower_eq_self
    intro hu
    omega

theorem asciiLower_eq_percent (c : Char) : (asciiLower c = '%') = (c = '%') :=
  asciiLower_eq_nonletter c '%' (by decide)

theorem asciiLower_eq_underscore (c : Char) : (asciiLower c = '_') = (c = '_') :=
  asciiLower_eq_nonletter c '_' (by decide)

/-- Folding the subject with `asciiLower` does not change a `LIKE` match:
the matcher compares characters through `asciiLower` anyway. -/
theorem likeMatch_map_subject (p : List Char) :
    ∀ s, likeMatch p (s.map asciiLower) = likeMatch p s := by
  induction p with
  | nil => intro s; cases s <;> simp [likeMatch]
  | cons c ps ih =>
    intro s
    by_cases hc : c = '%'
    · subst hc
      simp only [likeMatch, if_pos rfl]
      rw [List.map_tails]
      have : ∀ L : List (List Char),
          (L.map (List.map asciiLower)).any (fun t => likeMatch ps t) =
            L.any (fun t => likeMatch ps t) := by
        intro L
        induction L with
        | nil => rfl
        | cons t L ihL => simp [ihL, ih t]
      exact this s.tails
    · cases s with
      | nil => simp [likeMatch, hc]
      | cons d s' =>
        simp only [List.map_cons, likeMatch, if_neg hc]
        rw [asciiLower_idem, ih s']

/-- Folding the pattern with `asciiLower` does not change a `LIKE` match
either: the wildcards are not letters, and comparisons already fold. -/
theorem likeMatch_map_pattern (p : List Char) :
    ∀ s, likeMatch (p.map asciiLower) s = likeMatch p s := by
  induction p with
  | nil => intro s; rfl
  | cons c ps ih =>
    intro s
    by_cases hc : c = '%'
    · subst hc
      have h37 : asciiLower '%' = '%' := by decide
      simp only [List.map_cons, h37, likeMatch, if_pos rfl]
      have : ∀ L : List (List Char),
          (L.any fun t => likeMatch (ps.map asciiLower) t) =
            L.any (fun t => likeMatch ps t) := by
        intro L
        induction L with
        | nil => rfl
        | cons t L ihL => simp [ihL, ih t]
      exact this s.tails
    · have hlc : ¬(asciiLower c = '%') := by
        rw [asciiLower_eq_percent]; exact hc
      cases s with
      | nil => simp [likeMatch, hc, hlc, List.map_cons]
      | cons d s' =>
        simp only [List.map_cons, likeMatch, if_neg hc, if_neg hlc]
        rw [asciiLower_idem, ih s']
        simp only [asciiLower_eq_underscore]

/-- C9 counterexample: the claim says the export search filter selects
exactly the rows whose name contains the search string as a case-sensitive
substring.  With search `"ALICE"` against `demoStore`, the export filter
selects the row named `"Alice"`, although `"ALICE"` is not a case-sensitive
substring of `"Alice"` — under SQLite, `.contains` builds a `LIKE` that is
ASCII-case-insensitive. -/
theorem claim_C9_counterexample :
    exportFiltered none (some "ALICE") demoStore =
      [⟨1, "Alice", "a@b.co", 30, "Eng"⟩] ∧
    csSubstring "ALICE" "Alice" = false :=
  ⟨rfl, rfl⟩

/-- C9 (amended): both search filters render to SQLite `LIKE '%search%'`
(the export path directly, the list path through `lower()` on both sides),
and SQLite's `LIKE`/`lower()` fold only ASCII case — so the list and export
name predicates are extensionally equal, both case-insensitive over ASCII:
the match result is invariant under ASCII case changes of the stored name,
and the two filter pipelines return the same rows on every store. -/
theorem claim_C9 (search name : String) :
    listNameMatch search name = exportNameMatch search name ∧
    exportNameMatch search (String.mk (name.data.map asciiLower)) =
      exportNameMatch search name ∧
    (∀ dept q s, listFiltered dept q s = exportFiltered dept q s) := by
  refine ⟨?_, ?_, ?_⟩
  · unfold listNameMatch exportNameMatch
    rw [likeMatch_map_pattern, likeMatch_map_subject]
  · unfold exportNameMatch
    exact likeMatch_map_subject _ name.data
  · intro dept q s
    unfold listFiltered exportFiltered
    have hpred : ∀ t n, listNameMatch t n = exportNameMatch t n := by
      intro t n
      unfold listNameMatch exportNameMatch
      rw [likeMatch_map_pattern, likeMatch_map_subject]
    simp [hpred]

/-! ## CSV round trip (C8)

The writer quotes per the `excel` dialect; we prove that the standard
reader `csvParse` recovers exactly the header and the records in order,
which pins down both the layout and the correctness of the quoting. -/

theorem csvReadBare_clean (f : List Char) (rest : List Char)
    (hf : csvNeedsQuote f = false)
    (hrest : rest = [] ∨ rest.head? = some ',' ∨ rest.head? = some '\r') :
    csvReadBare (f ++ rest) = (f, rest) := by
  induction f with
  | nil =>
    rcases hrest with rfl | h | h
    · rfl
    · cases rest with
      | nil => simp at h
      | cons c r =>
        obtain rfl : c = ',' := by simpa using h
        simp [csvReadBare]
    · cases rest with
      | nil => simp at h
      | cons c r =>
        obtain rfl : c = '\r' := by simpa using h
        simp [csvReadBare]
  | cons c f' ih =>
    have hsplit : (c == ',' || c == '"' || c == '\n' || c == '\r') = false ∧
        csvNeedsQuote f' = false := by
      have := hf
      simp only [csvNeedsQuote, List.any_cons] at this
      constructor
      · cases hcc : (c == ',' || c == '"' || c == '\n' || c == '\r') <;>
          simp [hcc] at this ⊢
      · cases hq : f'.any (fun x => x == ',' || x == '"' || x == '\n' || x == '\r')
        · exact hq
        · simp [hq] at this
    have hcc : (c == ',' || c == '\r') = false := by
      cases h1 : (c == ',') <;> cases h2 : (c == '\r') <;>
        simp_all
    show csvReadBare (c :: (f' ++ rest)) = (c :: f', rest)
    unfold csvReadBare
    simp only [hcc, Bool.false_eq_true, if_false, ih hsplit.2]

theorem csvReadQuoted_escape (f : List Char) (rest : List Char)
    (hrest : rest.head? ≠ some '"') :
    csvReadQuoted (csvEscape f ++ '"' :: rest) = some (f, rest) := by
  induction f with
  | nil =>
    show csvReadQuoted ('"' :: rest) = some ([], rest)
    cases rest with
    | nil => rfl
    | cons d r =>
      have hd : ¬(d = '"') := by simpa using hrest
      simp [csvReadQuoted, hd]
  | cons c f' ih =>
    by_cases hc : c = '"'
    · subst hc
      show csvReadQuoted ('"' :: '"' :: (csvEscape f' ++ '"' :: rest)) =
        some ('"' :: f', rest)
      simp [csvReadQuoted, ih]
    · have hesc : csvEscape (c :: f') = c :: csvEscape f' := by
        simp [csvEscape, hc]
      rw [hesc, List.cons_append, csvReadQuoted.eq_def]
      simp only [if_neg hc]
      rw [ih]
      rfl

theorem csvReadField_fieldOut (f : List Char) (rest : List Char)
    (hrest : rest = [] ∨ rest.head? = some ',' ∨ rest.head? = some '\r') :
    csvReadField (csvFieldOut f ++ rest) = some (f, rest) := by
  unfold csvFieldOut
  cases hq : csvNeedsQuote f
  · rw [if_neg (by simp [hq])]
    cases f with
    | nil =>
      rcases hrest with rfl | h | h
      · rfl
      · cases rest with
        | nil => simp at h
        | cons c r =>
          obtain rfl : c = ',' := by simpa using h
          simp [csvReadField, csvReadBare]
      · cases rest with
        | nil => simp at h
        | cons c r =>
          obtain rfl : c = '\r' := by simpa using h
          simp [csvReadField, csvReadBare]
    | cons c f' =>
      have hcq : ¬(c = '"') := by
        intro hcontra
        subst hcontra
        simp [csvNeedsQuote] at hq
      have hb := csvReadBare_clean (c :: f') rest hq hrest
      show csvReadField (c :: (f' ++ rest)) = some (c :: f', rest)
      simp only [csvReadField, if_neg hcq, Option.some.injEq]
      exact hb
  · rw [if_pos (by simp [hq])]
    have hrest' : rest.head? ≠ some '"' := by
      rcases hrest with rfl | h | h
      · simp
      · simp [h]
      · simp [h]
    have hquoted := csvReadQuoted_escape f rest hrest'
    show csvReadField ('"' :: ((csvEscape f ++ ['"']) ++ rest)) = some (f, rest)
    simp only [csvReadField, if_pos rfl, List.append_assoc, List.cons_append,
      List.nil_append]
    simpa using hquoted

theorem csvReadRecord5_writerow (f1 f2 f3 f4 f5 rest : List Char) :
    csvReadRecord5 (csvWriterow [f1, f2, f3, f4, f5] ++ rest) =
      some ([f1, f2, f3, f4, f5], rest) := by
  show csvReadRecord5 ((csvJoin [f1, f2, f3, f4, f5] ++ ['\r', '\n']) ++ rest) =
    some ([f1, f2, f3, f4, f5], rest)
  simp only [csvJoin, List.append_assoc, List.cons_append, List.nil_append]
  simp [csvReadRecord5, csvReadField_fieldOut]

theorem isEmpty_append_cons (a : List Char) (c : Char) (b : List Char) :
    (a ++ c :: b).isEmpty = false := by
  cases a <;> rfl

theorem csvWriterow_append_isEmpty (fs : List (List Char)) (L : List Char) :
    (csvWriterow fs ++ L).isEmpty = false := by
  show ((csvJoin fs ++ ['\r', '\n']) ++ L).isEmpty = false
  rw [List.append_assoc, List.cons_append]
  exact isEmpty_append_cons _ _ _

theorem csvParseGo_flatten (rs : List (List (List Char))) :
    ∀ fuel, rs.length ≤ fuel →
    (∀ r ∈ rs, ∃ a b c d e, r = [a, b, c, d, e]) →
    csvParseGo fuel ((rs.map csvWriterow).flatten) = some rs := by
  induction rs with
  | nil => intro fuel _ _; cases fuel <;> simp [csvParseGo]
  | cons r rs' ih =>
    intro fuel hf hshape
    match fuel with
    | 0 => exact absurd hf (by simp)
    | fuel' + 1 =>
      obtain ⟨a, b, c, d, e, rfl⟩ := hshape r (List.mem_cons_self r rs')
      simp only [List.map_cons, List.flatten_cons]
      unfold csvParseGo
      rw [csvWriterow_append_isEmpty, csvReadRecord5_writerow]
      show Option.map (fun x => [a, b, c, d, e] :: x)
          (csvParseGo fuel' ((rs'.map csvWriterow).flatten)) =
        some ([a, b, c, d, e] :: rs')
      rw [ih fuel' (by simpa using hf)
        (fun x hx => hshape x (List.mem_cons_of_mem _ hx))]
      rfl

theorem length_le_flatten_writerow (rs : List (List (List Char))) :
    rs.length ≤ ((rs.map csvWriterow).flatten).length := by
  induction rs with
  | nil => simp
  | cons r rs' ih =>
    simp only [List.map_cons, List.flatten_cons, List.length_append,
      List.length_cons]
    have h1 : 2 ≤ (csvWriterow r).length := by
      show 2 ≤ (csvJoin r ++ ['\r', '\n']).length
      rw [List.length_append]
      simp
    omega

theorem exportCsv_roundtrip (rows : List Employee) :
    csvParse (exportCsvChars rows) =
      some (csvHeader :: rows.map recordFields) := by
  unfold csvParse exportCsvChars
  have hdoc : csvWriterow csvHeader ++
      (rows.map (fun r => csvWriterow (recordFields r))).flatten =
      (((csvHeader :: rows.map recordFields)).map csvWriterow).flatten := by
    simp only [List.map_cons, List.flatten_cons, List.map_map]
    rfl
  rw [hdoc]
  apply csvParseGo_flatten
  · exact length_le_flatten_writerow _
  · intro r hr
    rcases List.mem_cons.mp hr with rfl | hr'
    · exact ⟨_, _, _, _, _, rfl⟩
    · obtain ⟨emp, _, rfl⟩ := List.mem_map.mp hr'
      exact ⟨_, _, _, _, _, rfl⟩

/-- C8: the CSV payload of the export route starts with the literal header
row `id,name,email,age,department` (CRLF-terminated), and parsing the whole
payload back with a standard `excel`-dialect CSV reader yields exactly the
header plus one record per row in query order — so commas, quotes and
newlines inside fields are quoted/escaped correctly. -/
theorem claim_C8 (dept search : Option String) (s : Store) :
    csvParse (export_employees_csv dept search s) =
      some (csvHeader :: (exportFiltered dept search s).map recordFields) ∧
    (export_employees_csv dept search s).take 30 =
      ("id,name,email,age,department\r\n").data := by
  constructor
  · exact exportCsv_roundtrip _
  · show (exportCsvChars (exportFiltered dept search s)).take 30 = _
    unfold exportCsvChars
    have h30 : csvWriterow csvHeader =
        ("id,name,email,age,department\r\n").data := by rfl
    rw [h30, List.take_left' (by rfl)]

end EmployeeApi
